import Mathlib

/-!
Shallow embedding of `tensorflow/core/common_runtime/function.cc` (the
function-graph execution runtime): the mutable node/edge graph data model,
the graph rewrite passes (`RemoveDeadNodes`, `RemoveIdentityNodes`,
`RemoveListArrayConverter`, `ExpandInlineFunctions` with
`ValidateInlining`/`InlineFunctionBody`), the symbolic gradient builder
(`SymbolicGradientHelper::Compute`), and the instantiation cache
(`FunctionLibraryRuntimeImpl::Instantiate`, `GetFunctionBody`,
`GetOrCreateItem`).

The low-level graph structure (node/edge add/remove primitives) is an
external collaborator of this translation unit; following the design
notes it is modelled as an arena of nodes addressed by stable integer
identifiers, with edges as records of endpoint ids and slots.
-/

namespace TFFunction

/-- Tensor data types are modelled as natural numbers (the `DataType`
proto enum).  Reference types sit at `value + 100` in that enum. -/
abbrev DType := Nat

/-- Modelled from the spec: "mutable/reference type" — in the `DataType`
enum a reference type is the value type shifted by the ref offset 100
(`DT_FLOAT_REF = 101`, …); `IsRefType` holds above the offset. -/
def IsRefType (t : DType) : Bool := 100 < t

/-- A graph node: stable id, name, op type string, the node-class
predicates used by the rewrite passes (`IsSource`, `IsSink`,
`IsControlFlow`, `op_def().is_stateful()`), and its declared per-slot
input/output tensor types (`input_type(i)` / `output_type(i)`). -/
structure GNode where
  id : Nat
  name : String
  op : String
  isSource : Bool
  isSink : Bool
  isControlFlow : Bool
  isStateful : Bool
  inputTypes : List DType
  outputTypes : List DType
deriving DecidableEq, Repr

/-- `num_inputs()` of a node. -/
def GNode.numInputs (n : GNode) : Nat := n.inputTypes.length

/-- `num_outputs()` of a node. -/
def GNode.numOutputs (n : GNode) : Nat := n.outputTypes.length

/-- `Node::IsIdentity()`. -/
def GNode.isIdentity (n : GNode) : Bool := n.op = "Identity"

/-- An edge: source node id and output slot, destination node id and
input slot.  A control edge carries no value; `isControl` mirrors
`Edge::IsControlEdge()` (source output is the control slot). -/
structure GEdge where
  src : Nat
  srcOutput : Nat
  dst : Nat
  dstInput : Nat
  isControl : Bool
deriving DecidableEq, Repr

/-- The mutable graph: an arena of nodes with a monotone fresh-id
counter, plus the edge list. -/
structure Graph where
  nextId : Nat
  nodes : List GNode
  edges : List GEdge
deriving DecidableEq, Repr

/-- Ids of the nodes currently in the graph. -/
def Graph.nodeIds (g : Graph) : List Nat := g.nodes.map (·.id)

/-- `FindNodeId`: the node with the given id, if present. -/
def Graph.findNode (g : Graph) (i : Nat) : Option GNode :=
  g.nodes.find? (fun n => n.id = i)

/-- `node->in_edges()`: edges whose destination is the node. -/
def Graph.inEdges (g : Graph) (i : Nat) : List GEdge :=
  g.edges.filter (fun e => e.dst = i)

/-- `node->out_edges()`: edges whose source is the node. -/
def Graph.outEdges (g : Graph) (i : Nat) : List GEdge :=
  g.edges.filter (fun e => e.src = i)

/-- `output_type` of the `slot`-th output of node `i` (0 when the node
or slot does not exist, mirroring an out-of-contract access). -/
def Graph.outTypeOf (g : Graph) (i slot : Nat) : DType :=
  ((g.findNode i).map (fun n => n.outputTypes.getD slot 0)).getD 0

/-- `Graph::AddNode`: installs a node under a fresh id. -/
def Graph.addNode (g : Graph) (name op : String) (inTs outTs : List DType) :
    Graph × Nat :=
  let n : GNode :=
    { id := g.nextId, name := name, op := op,
      isSource := false, isSink := false,
      isControlFlow := false, isStateful := false,
      inputTypes := inTs, outputTypes := outTs }
  ({ g with nextId := g.nextId + 1, nodes := g.nodes ++ [n] }, g.nextId)

/-- `Graph::AddEdge(src, srcOutput, dst, dstInput)`. -/
def Graph.addEdge (g : Graph) (src srcOutput dst dstInput : Nat) : Graph :=
  { g with edges := g.edges ++
      [{ src := src, srcOutput := srcOutput, dst := dst, dstInput := dstInput,
         isControl := false }] }

/-- `Graph::AddControlEdge(src, dst)`. -/
def Graph.addControlEdge (g : Graph) (src dst : Nat) : Graph :=
  { g with edges := g.edges ++
      [{ src := src, srcOutput := 0, dst := dst, dstInput := 0,
         isControl := true }] }

/-- `Graph::RemoveNode`: drops the node and every incident edge. -/
def Graph.removeNode (g : Graph) (i : Nat) : Graph :=
  { g with nodes := g.nodes.filter (fun n => n.id ≠ i),
           edges := g.edges.filter (fun e => e.src ≠ i ∧ e.dst ≠ i) }

/-- `AddNoOp`: a fresh `NoOp` node (used as a control barrier). -/
def AddNoOp (g : Graph) : Graph × Nat :=
  g.addNode "" "NoOp" [] []

/-- `AddIdentity(g, input)`: a fresh `Identity` node of the input
endpoint's dtype, fed by a data edge from that endpoint into slot 0. -/
def AddIdentity (g : Graph) (input : Nat × Nat) : Graph × Nat :=
  let t := g.outTypeOf input.1 input.2
  let (g1, nid) := g.addNode "" "Identity" [t] [t]
  (g1.addEdge input.1 input.2 nid 0, nid)

/-- `AddArg(g, dtype, index)`: a fresh `_Arg` node producing `dtype`. -/
def AddArg (g : Graph) (dtype : DType) (index : Nat) : Graph × Nat :=
  let r := g.addNode "" "_Arg" [] [dtype]
  let _ := index
  r

/-- `AddRet(g, input, index)`: a fresh `_Retval` node consuming the
input endpoint's dtype through a data edge into slot 0. -/
def AddRet (g : Graph) (input : Nat × Nat) (index : Nat) : Graph × Nat :=
  let t := g.outTypeOf input.1 input.2
  let (g1, nid) := g.addNode "" "_Retval" [t] []
  let _ := index
  (g1.addEdge input.1 input.2 nid 0, nid)

/-- Well-formedness of a graph as maintained by the external graph
collaborator: node ids are distinct and every edge endpoint names a
node of the graph. -/
def Graph.WF (g : Graph) : Prop :=
  g.nodeIds.Nodup ∧
  ∀ e ∈ g.edges, (∃ n ∈ g.nodes, n.id = e.src) ∧ ∃ n ∈ g.nodes, n.id = e.dst

/-! ## `RemoveDeadNodes` -/

/-- The must-keep seed predicate of `RemoveDeadNodes`: source, sink,
control-flow, or stateful nodes. -/
def keepNode (n : GNode) : Bool :=
  n.isSource || n.isSink || n.isControlFlow || n.isStateful

/-- Ids of the seed nodes enqueued by `RemoveDeadNodes`. -/
def seedIds (g : Graph) : Finset Nat :=
  ((g.nodes.filter keepNode).map (·.id)).toFinset

/-- One expansion step of the backward breadth-first traversal: add the
source of every in-edge of an already visited node. -/
def visStep (g : Graph) (vis : Finset Nat) : Finset Nat :=
  vis ∪ ((g.edges.filter (fun e => e.dst ∈ vis)).map (·.src)).toFinset

/-- The visited set after `k` rounds of expansion from the seeds. -/
def visIter (g : Graph) : Nat → Finset Nat
  | 0 => seedIds g
  | k + 1 => visStep g (visIter g k)

/-- The visited set computed by `RemoveDeadNodes`' traversal (the
traversal stabilizes within `nodes.length + 1` rounds). -/
def visitedSet (g : Graph) : Finset Nat := visIter g (g.nodes.length + 1)

/-- Ids of the nodes `RemoveDeadNodes` removes: present but unvisited. -/
def removedIdsOf (g : Graph) : Finset Nat :=
  ((g.nodes.filter (fun n => ¬ n.id ∈ visitedSet g)).map (·.id)).toFinset

/-- `RemoveDeadNodes`: removes every node the backward traversal did
not visit (each removal also drops incident edges); returns whether
anything was removed. -/
def RemoveDeadNodes (g : Graph) : Graph × Bool :=
  let keep := g.nodes.filter (fun n => n.id ∈ visitedSet g)
  ({ nextId := g.nextId,
     nodes := keep,
     edges := g.edges.filter
       (fun e => ¬ e.src ∈ removedIdsOf g ∧ ¬ e.dst ∈ removedIdsOf g) },
   decide (keep.length ≠ g.nodes.length))

/-- Backward reachability from the must-keep set over incoming edges:
the specification-level meaning of "visited". -/
inductive Reaches (g : Graph) : Nat → Prop where
  | seed : ∀ n ∈ g.nodes, keepNode n = true → Reaches g n.id
  | step : ∀ e ∈ g.edges, Reaches g e.dst → Reaches g e.src

lemma subset_visStep (g : Graph) (vis : Finset Nat) : vis ⊆ visStep g vis :=
  Finset.subset_union_left

lemma visIter_subset_succ (g : Graph) (k : Nat) :
    visIter g k ⊆ visIter g (k + 1) :=
  subset_visStep g (visIter g k)

lemma seedIds_subset_visIter (g : Graph) (k : Nat) : seedIds g ⊆ visIter g k := by
  induction k with
  | zero => exact Finset.Subset.refl _
  | succ k ih => exact ih.trans (visIter_subset_succ g k)

lemma mem_seedIds {g : Graph} {a : Nat} :
    a ∈ seedIds g ↔ ∃ n ∈ g.nodes, keepNode n = true ∧ n.id = a := by
  simp only [seedIds, List.mem_toFinset, List.mem_map, List.mem_filter]
  constructor
  · rintro ⟨n, ⟨hn, hk⟩, rfl⟩
    exact ⟨n, hn, hk, rfl⟩
  · rintro ⟨n, hn, hk, rfl⟩
    exact ⟨n, ⟨hn, hk⟩, rfl⟩

lemma mem_visStep {g : Graph} {vis : Finset Nat} {a : Nat} :
    a ∈ visStep g vis ↔
      a ∈ vis ∨ ∃ e ∈ g.edges, e.dst ∈ vis ∧ e.src = a := by
  simp only [visStep, Finset.mem_union, List.mem_toFinset, List.mem_map,
    List.mem_filter, decide_eq_true_eq]
  constructor
  · rintro (h | ⟨e, ⟨he, hd⟩, rfl⟩)
    · exact Or.inl h
    · exact Or.inr ⟨e, he, hd, rfl⟩
  · rintro (h | ⟨e, he, hd, rfl⟩)
    · exact Or.inl h
    · exact Or.inr ⟨e, ⟨he, hd⟩, rfl⟩

lemma visIter_sound {g : Graph} : ∀ k, ∀ a ∈ visIter g k, Reaches g a := by
  intro k
  induction k with
  | zero =>
    intro a ha
    obtain ⟨n, hn, hk, rfl⟩ := mem_seedIds.mp ha
    exact Reaches.seed n hn hk
  | succ k ih =>
    intro a ha
    rcases mem_visStep.mp ha with h | ⟨e, he, hd, rfl⟩
    · exact ih a h
    · exact Reaches.step e he (ih e.dst hd)

lemma visIter_subset_nodeIds {g : Graph} (hwf : g.WF) (k : Nat) :
    visIter g k ⊆ g.nodeIds.toFinset := by
  induction k with
  | zero =>
    intro a ha
    obtain ⟨n, hn, _, rfl⟩ := mem_seedIds.mp ha
    simp only [List.mem_toFinset, Graph.nodeIds, List.mem_map]
    exact ⟨n, hn, rfl⟩
  | succ k ih =>
    intro a ha
    rcases mem_visStep.mp ha with h | ⟨e, he, _, rfl⟩
    · exact ih h
    · obtain ⟨⟨n, hn, hid⟩, _⟩ := hwf.2 e he
      simp only [List.mem_toFinset, Graph.nodeIds, List.mem_map]
      exact ⟨n, hn, hid⟩

lemma exists_visIter_fix {g : Graph} (hwf : g.WF) :
    ∃ k ≤ g.nodes.length, visStep g (visIter g k) = visIter g k := by
  by_contra hno
  push_neg at hno
  have hgrow : ∀ k, k ≤ g.nodes.length + 1 → k ≤ (visIter g k).card := by
    intro k
    induction k with
    | zero => intro _; exact Nat.zero_le _
    | succ k ih =>
      intro hk
      have hk' : k ≤ g.nodes.length := Nat.lt_succ_iff.mp hk
      have hne := hno k hk'
      have hssub : visIter g k ⊂ visIter g (k + 1) :=
        Finset.ssubset_iff_subset_ne.mpr ⟨visIter_subset_succ g k, fun h => hne h.symm⟩
      have := Finset.card_lt_card hssub
      have hik := ih (Nat.le_of_succ_le hk)
      omega
  have h1 : g.nodes.length + 1 ≤ (visIter g (g.nodes.length + 1)).card :=
    hgrow _ le_rfl
  have h2 : (visIter g (g.nodes.length + 1)).card ≤ g.nodeIds.toFinset.card :=
    Finset.card_le_card (visIter_subset_nodeIds hwf _)
  have h3 : g.nodeIds.toFinset.card ≤ g.nodeIds.length := g.nodeIds.toFinset_card_le
  have h4 : g.nodeIds.length = g.nodes.length := List.length_map _ _
  omega

lemma visIter_stable {g : Graph} {k : Nat}
    (hfix : visStep g (visIter g k) = visIter g k) :
    ∀ m, visIter g (k + m) = visIter g k := by
  intro m
  induction m with
  | zero => rfl
  | succ m ih =>
    have : k + (m + 1) = (k + m) + 1 := by omega
    rw [this]
    show visStep g (visIter g (k + m)) = visIter g k
    rw [ih, hfix]

lemma visitedSet_fix {g : Graph} (hwf : g.WF) :
    visStep g (visitedSet g) = visitedSet g := by
  obtain ⟨k, hk, hfix⟩ := exists_visIter_fix hwf
  have hrepr : visitedSet g = visIter g k := by
    have : g.nodes.length + 1 = k + (g.nodes.length + 1 - k) := by omega
    show visIter g (g.nodes.length + 1) = visIter g k
    rw [this, visIter_stable hfix]
  rw [hrepr, hfix]

lemma reaches_mem_visitedSet {g : Graph} (hwf : g.WF) {a : Nat}
    (h : Reaches g a) : a ∈ visitedSet g := by
  induction h with
  | seed n hn hk =>
    exact seedIds_subset_visIter g _ (mem_seedIds.mpr ⟨n, hn, hk, rfl⟩)
  | step e he _ ih =>
    have : e.src ∈ visStep g (visitedSet g) :=
      mem_visStep.mpr (Or.inr ⟨e, he, ih, rfl⟩)
    rwa [visitedSet_fix hwf] at this

lemma mem_visitedSet_iff_reaches {g : Graph} (hwf : g.WF) {a : Nat} :
    a ∈ visitedSet g ↔ Reaches g a :=
  ⟨visIter_sound _ a, reaches_mem_visitedSet hwf⟩

lemma mem_removeDeadNodes_nodes {g : Graph} {n : GNode} :
    n ∈ (RemoveDeadNodes g).1.nodes ↔ n ∈ g.nodes ∧ n.id ∈ visitedSet g := by
  simp [RemoveDeadNodes, List.mem_filter]

lemma mem_removeDeadNodes_edges {g : Graph} {e : GEdge} :
    e ∈ (RemoveDeadNodes g).1.edges ↔
      e ∈ g.edges ∧ ¬ e.src ∈ removedIdsOf g ∧ ¬ e.dst ∈ removedIdsOf g := by
  simp [RemoveDeadNodes, List.mem_filter]

lemma mem_removedIdsOf {g : Graph} {a : Nat} :
    a ∈ removedIdsOf g ↔ ∃ n ∈ g.nodes, ¬ n.id ∈ visitedSet g ∧ n.id = a := by
  simp only [removedIdsOf, List.mem_toFinset, List.mem_map, List.mem_filter,
    decide_eq_true_eq]
  constructor
  · rintro ⟨n, ⟨hn, hv⟩, rfl⟩
    exact ⟨n, hn, by simpa using hv, rfl⟩
  · rintro ⟨n, hn, hv, rfl⟩
    exact ⟨n, ⟨hn, by simpa using hv⟩, rfl⟩

lemma not_mem_removedIdsOf_of_visited {g : Graph} {a : Nat}
    (h : a ∈ visitedSet g) : ¬ a ∈ removedIdsOf g := by
  intro hmem
  obtain ⟨n, _, hv, rfl⟩ := mem_removedIdsOf.mp hmem
  exact hv h

lemma not_mem_removedIdsOf_iff {g : Graph} {a : Nat}
    (hex : ∃ n ∈ g.nodes, n.id = a) :
    ¬ a ∈ removedIdsOf g ↔ a ∈ visitedSet g := by
  constructor
  · intro h
    by_contra hv
    obtain ⟨n, hn, rfl⟩ := hex
    exact h (mem_removedIdsOf.mpr ⟨n, hn, hv, rfl⟩)
  · exact not_mem_removedIdsOf_of_visited

lemma removeDeadNodes_wf {g : Graph} (hwf : g.WF) :
    (RemoveDeadNodes g).1.WF := by
  constructor
  · have : (RemoveDeadNodes g).1.nodeIds.Sublist g.nodeIds := by
      simpa [Graph.nodeIds, RemoveDeadNodes] using
        (List.filter_sublist g.nodes).map (·.id)
    exact hwf.1.sublist this
  · intro e he
    rw [mem_removeDeadNodes_edges] at he
    obtain ⟨heg, hsrc, hdst⟩ := he
    obtain ⟨⟨m, hm, hmid⟩, ⟨m', hm', hmid'⟩⟩ := hwf.2 e heg
    refine ⟨⟨m, ?_, hmid⟩, ⟨m', ?_, hmid'⟩⟩
    · rw [mem_removeDeadNodes_nodes]
      refine ⟨hm, ?_⟩
      rw [hmid]
      exact (not_mem_removedIdsOf_iff ⟨m, hm, hmid⟩).mp hsrc
    · rw [mem_removeDeadNodes_nodes]
      refine ⟨hm', ?_⟩
      rw [hmid']
      exact (not_mem_removedIdsOf_iff ⟨m', hm', hmid'⟩).mp hdst

lemma reaches_removeDeadNodes {g : Graph} (hwf : g.WF) {a : Nat}
    (h : Reaches g a) : Reaches (RemoveDeadNodes g).1 a := by
  induction h with
  | seed n hn hk =>
    refine Reaches.seed n ?_ hk
    rw [mem_removeDeadNodes_nodes]
    exact ⟨hn, reaches_mem_visitedSet hwf (Reaches.seed n hn hk)⟩
  | step e he hd ih =>
    refine Reaches.step e ?_ ih
    rw [mem_removeDeadNodes_edges]
    refine ⟨he, ?_, ?_⟩
    · exact not_mem_removedIdsOf_of_visited
        (reaches_mem_visitedSet hwf (Reaches.step e he hd))
    · exact not_mem_removedIdsOf_of_visited (reaches_mem_visitedSet hwf hd)

lemma removeDeadNodes_nodes_reach {g : Graph} (hwf : g.WF) :
    ∀ n ∈ (RemoveDeadNodes g).1.nodes, Reaches (RemoveDeadNodes g).1 n.id := by
  intro n hn
  rw [mem_removeDeadNodes_nodes] at hn
  exact reaches_removeDeadNodes hwf (visIter_sound _ n.id hn.2)

lemma removeDeadNodes_idempotent {g : Graph} (hwf : g.WF) :
    RemoveDeadNodes (RemoveDeadNodes g).1 = ((RemoveDeadNodes g).1, false) := by
  set g' := (RemoveDeadNodes g).1 with hg'
  have hall : ∀ n ∈ g'.nodes, n.id ∈ visitedSet g' := fun n hn =>
    reaches_mem_visitedSet (removeDeadNodes_wf hwf)
      (removeDeadNodes_nodes_reach hwf n hn)
  have hnodes : g'.nodes.filter (fun n => n.id ∈ visitedSet g') = g'.nodes :=
    List.filter_eq_self.mpr (fun n hn => decide_eq_true (hall n hn))
  have hrem : ∀ a, ¬ a ∈ removedIdsOf g' := by
    intro a ha
    obtain ⟨n, hn, hv, rfl⟩ := mem_removedIdsOf.mp ha
    exact hv (hall n hn)
  have hedges : g'.edges.filter
      (fun e => ¬ e.src ∈ removedIdsOf g' ∧ ¬ e.dst ∈ removedIdsOf g') = g'.edges :=
    List.filter_eq_self.mpr (fun e _ => decide_eq_true ⟨hrem _, hrem _⟩)
  show RemoveDeadNodes g' = (g', false)
  unfold RemoveDeadNodes
  simp only [hnodes, hedges]
  simp

/-- Claim C7: `RemoveDeadNodes` removes exactly the nodes that are not
backward-reachable (over incoming edges) from the source/sink/
control-flow/stateful must-keep set, never removes a must-keep node,
and is idempotent: a second run directly after removes nothing. -/
theorem removeDeadNodes_spec (g : Graph) (hwf : g.WF) :
    (∀ n, n ∈ (RemoveDeadNodes g).1.nodes ↔ n ∈ g.nodes ∧ Reaches g n.id) ∧
    (∀ n ∈ g.nodes, keepNode n = true → n ∈ (RemoveDeadNodes g).1.nodes) ∧
    RemoveDeadNodes (RemoveDeadNodes g).1 = ((RemoveDeadNodes g).1, false) := by
  refine ⟨?_, ?_, removeDeadNodes_idempotent hwf⟩
  · intro n
    rw [mem_removeDeadNodes_nodes]
    exact and_congr_right (fun _ => mem_visitedSet_iff_reaches hwf)
  · intro n hn hk
    rw [mem_removeDeadNodes_nodes]
    exact ⟨hn, reaches_mem_visitedSet hwf (Reaches.seed n hn hk)⟩

/-- A concrete three-node graph: a source node, a live op feeding the
source via an in-edge, and a dead op. -/
def gDeadEx : Graph :=
  { nextId := 3,
    nodes :=
      [ { id := 0, name := "s", op := "_Source", isSource := true, isSink := false,
          isControlFlow := false, isStateful := false,
          inputTypes := [], outputTypes := [] },
        { id := 1, name := "live", op := "Foo", isSource := false, isSink := false,
          isControlFlow := false, isStateful := false,
          inputTypes := [], outputTypes := [1] },
        { id := 2, name := "dead", op := "Bar", isSource := false, isSink := false,
          isControlFlow := false, isStateful := false,
          inputTypes := [], outputTypes := [1] } ],
    edges :=
      [ { src := 1, srcOutput := 0, dst := 0, dstInput := 0, isControl := true } ] }

theorem removeDeadNodes_spec_witness :
    gDeadEx.WF ∧
      RemoveDeadNodes (RemoveDeadNodes gDeadEx).1 =
        ((RemoveDeadNodes gDeadEx).1, false) :=
  ⟨⟨by decide, by decide⟩,
    (removeDeadNodes_spec gDeadEx ⟨by decide, by decide⟩).2.2⟩

/-! ## `RemoveIdentityNodes` -/

/-- Loop of `GetTheOnlyDataEdge`: bail out on a control edge or a
second edge; bail out when the source output is a reference type;
otherwise remember the data edge. -/
def gtodeLoop (g : Graph) : List GEdge → Option GEdge → Option GEdge
  | [], ret => ret
  | e :: rest, ret =>
    if e.isControl || ret.isSome then none
    else if IsRefType (g.outTypeOf e.src e.srcOutput) then none
    else gtodeLoop g rest (some e)

/-- `GetTheOnlyDataEdge(edges)`: the unique non-control, non-reference
in-edge if the edge set consists of exactly that edge. -/
def GetTheOnlyDataEdge (g : Graph) (edges : List GEdge) : Option GEdge :=
  gtodeLoop g edges none

/-- Splicing one identity node out: redirect each outgoing data edge to
originate at the identity's single input endpoint and each outgoing
control edge at that input's node, then remove the node (this is the
per-node body of `RemoveIdentityNodes`' rewrite loop). -/
def foldIdentity (g : Graph) (nid : Nat) : Graph :=
  match GetTheOnlyDataEdge g (g.inEdges nid) with
  | none => g
  | some inE =>
      let newEdges := (g.outEdges nid).map (fun out =>
        if out.isControl then
          { src := inE.src, srcOutput := 0, dst := out.dst, dstInput := 0,
            isControl := true }
        else
          { src := inE.src, srcOutput := inE.srcOutput, dst := out.dst,
            dstInput := out.dstInput, isControl := false })
      Graph.removeNode { g with edges := g.edges ++ newEdges } nid

/-- The match predicate of `RemoveIdentityNodes`' scan. -/
def identityMatch (g : Graph) (n : GNode) : Bool :=
  n.isIdentity && (GetTheOnlyDataEdge g (g.inEdges n.id)).isSome

/-- `RemoveIdentityNodes`: scan for identity nodes with exactly one
non-control, non-reference in-edge, then splice each of them out. -/
def RemoveIdentityNodes (g : Graph) : Graph × Bool :=
  let ms := g.nodes.filter (identityMatch g)
  if ms.isEmpty then (g, false)
  else (ms.foldl (fun acc n => foldIdentity acc n.id) g, true)

lemma gtodeLoop_nil (g : Graph) (ret : Option GEdge) :
    gtodeLoop g [] ret = ret := rfl

lemma gtodeLoop_cons_cons (g : Graph) (a b : GEdge) (rest : List GEdge) :
    gtodeLoop g (a :: b :: rest) none = none := by
  simp only [gtodeLoop, Option.isSome_none, Bool.or_false, Option.isSome_some,
    Bool.or_true, if_true]
  by_cases h1 : a.isControl
  · simp [h1]
  · by_cases h2 : IsRefType (g.outTypeOf a.src a.srcOutput) <;> simp [h1, h2]

/-- `GetTheOnlyDataEdge` succeeds exactly on a singleton in-edge list
holding one non-control edge whose source output is not a reference
type. -/
lemma getTheOnlyDataEdge_eq_some {g : Graph} {es : List GEdge} {e : GEdge} :
    GetTheOnlyDataEdge g es = some e ↔
      es = [e] ∧ e.isControl = false ∧
        IsRefType (g.outTypeOf e.src e.srcOutput) = false := by
  match es with
  | [] => simp [GetTheOnlyDataEdge, gtodeLoop]
  | [a] =>
    simp only [GetTheOnlyDataEdge, gtodeLoop, Option.isSome_none, Bool.or_false]
    by_cases h1 : a.isControl
    · simp [h1]
      rintro rfl
      simp [h1]
    · by_cases h2 : IsRefType (g.outTypeOf a.src a.srcOutput)
      · simp [h1, h2]
        rintro rfl
        simp [h2]
      · simp [h1, h2]
        rintro rfl
        exact ⟨by simpa using h1, by simpa using h2⟩
  | a :: b :: rest =>
    rw [GetTheOnlyDataEdge, gtodeLoop_cons_cons]
    simp

lemma foldIdentity_of_none {g : Graph} {i : Nat}
    (h : GetTheOnlyDataEdge g (g.inEdges i) = none) : foldIdentity g i = g := by
  simp [foldIdentity, h]

lemma foldIdentity_nodes_of_some {g : Graph} {i : Nat} {inE : GEdge}
    (h : GetTheOnlyDataEdge g (g.inEdges i) = some inE) :
    (foldIdentity g i).nodes = g.nodes.filter (fun m => m.id ≠ i) := by
  simp [foldIdentity, h, Graph.removeNode]

lemma foldIdentity_mem_nodes {g : Graph} {i : Nat} {n : GNode}
    (hn : n ∈ g.nodes) (hne : n.id ≠ i) : n ∈ (foldIdentity g i).nodes := by
  unfold foldIdentity
  cases hm : GetTheOnlyDataEdge g (g.inEdges i) with
  | none => exact hn
  | some inE =>
    simp only [Graph.removeNode, List.mem_filter]
    exact ⟨hn, decide_eq_true hne⟩

lemma foldl_foldIdentity_mem {n : GNode} :
    ∀ (l : List GNode) (g : Graph), n ∈ g.nodes → (∀ m ∈ l, m.id ≠ n.id) →
      n ∈ (l.foldl (fun acc m => foldIdentity acc m.id) g).nodes := by
  intro l
  induction l with
  | nil => intro g hg _; exact hg
  | cons m rest ih =>
    intro g hg hne
    exact ih (foldIdentity g m.id)
      (foldIdentity_mem_nodes hg (fun h => hne m (List.mem_cons_self m rest) h.symm))
      (fun m' hm' => hne m' (List.mem_cons_of_mem m hm'))

/-- Claim C8: `RemoveIdentityNodes` folds an identity node only when
its in-edges are exactly one non-control data edge whose source output
is not a reference type; a failing identity node is left in the graph;
when a node is folded, each outgoing data edge is re-sourced to the
input endpoint (node and output index), each outgoing control edge to
the input node, edges not incident to the identity are kept, and the
identity node itself is removed. -/
theorem removeIdentityNodes_spec (g : Graph) (n : GNode)
    (hn : n ∈ g.nodes) (hident : n.op = "Identity") (hnd : g.nodeIds.Nodup) :
    (GetTheOnlyDataEdge g (g.inEdges n.id) = none →
       n ∈ (RemoveIdentityNodes g).1.nodes) ∧
    (∀ e, GetTheOnlyDataEdge g (g.inEdges n.id) = some e ↔
       g.inEdges n.id = [e] ∧ e.isControl = false ∧
         IsRefType (g.outTypeOf e.src e.srcOutput) = false) ∧
    (∀ inE, GetTheOnlyDataEdge g (g.inEdges n.id) = some inE →
       inE.src ≠ n.id →
       (foldIdentity g n.id).nodes = g.nodes.filter (fun m => m.id ≠ n.id) ∧
       (∀ out ∈ g.outEdges n.id, out.isControl = false → out.dst ≠ n.id →
          ({ src := inE.src, srcOutput := inE.srcOutput, dst := out.dst,
             dstInput := out.dstInput, isControl := false } : GEdge)
            ∈ (foldIdentity g n.id).edges) ∧
       (∀ out ∈ g.outEdges n.id, out.isControl = true → out.dst ≠ n.id →
          ({ src := inE.src, srcOutput := 0, dst := out.dst, dstInput := 0,
             isControl := true } : GEdge) ∈ (foldIdentity g n.id).edges) ∧
       (∀ e ∈ g.edges, e.src ≠ n.id → e.dst ≠ n.id →
          e ∈ (foldIdentity g n.id).edges) ∧
       (∀ e ∈ (foldIdentity g n.id).edges, e.src ≠ n.id ∧ e.dst ≠ n.id)) := by
  refine ⟨?_, fun e => getTheOnlyDataEdge_eq_some, ?_⟩
  · intro hnone
    have hmatch : identityMatch g n = false := by
      simp [identityMatch, hnone]
    unfold RemoveIdentityNodes
    by_cases hemp : (g.nodes.filter (identityMatch g)).isEmpty
    · simp only [hemp, if_true]
      exact hn
    · simp only [hemp, if_false]
      refine foldl_foldIdentity_mem _ g hn ?_
      intro m hm hmeq
      have hmn : m ∈ g.nodes := (List.mem_filter.mp hm).1
      have : m = n := List.inj_on_of_nodup_map hnd hmn hn hmeq
      rw [this] at hm
      rw [List.mem_filter, hmatch] at hm
      exact Bool.false_ne_true hm.2
  · intro inE hsome hsrc
    have hedges : (foldIdentity g n.id).edges =
        (g.edges ++ (g.outEdges n.id).map (fun out : GEdge =>
          if out.isControl then
            ({ src := inE.src, srcOutput := 0, dst := out.dst, dstInput := 0,
               isControl := true } : GEdge)
          else
            { src := inE.src, srcOutput := inE.srcOutput, dst := out.dst,
              dstInput := out.dstInput, isControl := false })).filter
          (fun e => e.src ≠ n.id ∧ e.dst ≠ n.id) := by
      simp [foldIdentity, hsome, Graph.removeNode]
    refine ⟨foldIdentity_nodes_of_some hsome, ?_, ?_, ?_, ?_⟩
    · intro out hout hc hdst
      rw [hedges, List.mem_filter]
      refine ⟨List.mem_append_right _ ?_, by simp [hsrc, hdst]⟩
      refine List.mem_map.mpr ⟨out, hout, ?_⟩
      simp [hc]
    · intro out hout hc hdst
      rw [hedges, List.mem_filter]
      refine ⟨List.mem_append_right _ ?_, by simp [hsrc, hdst]⟩
      refine List.mem_map.mpr ⟨out, hout, ?_⟩
      simp [hc]
    · intro e he h1 h2
      rw [hedges, List.mem_filter]
      exact ⟨List.mem_append_left _ he, by simp [h1, h2]⟩
    · intro e he
      rw [hedges, List.mem_filter] at he
      simpa using he.2

/-- A producer feeding an identity node that feeds a consumer. -/
def idNodeEx : GNode :=
  { id := 1, name := "i", op := "Identity", isSource := false, isSink := false,
    isControlFlow := false, isStateful := false,
    inputTypes := [1], outputTypes := [1] }

def gIdEx : Graph :=
  { nextId := 3,
    nodes :=
      [ { id := 0, name := "p", op := "Producer", isSource := false, isSink := false,
          isControlFlow := false, isStateful := false,
          inputTypes := [], outputTypes := [1] },
        idNodeEx,
        { id := 2, name := "c", op := "Consumer", isSource := false, isSink := false,
          isControlFlow := false, isStateful := false,
          inputTypes := [1], outputTypes := [] } ],
    edges :=
      [ { src := 0, srcOutput := 0, dst := 1, dstInput := 0, isControl := false },
        { src := 1, srcOutput := 0, dst := 2, dstInput := 0, isControl := false } ] }

def idEdgeEx : GEdge :=
  { src := 0, srcOutput := 0, dst := 1, dstInput := 0, isControl := false }

theorem removeIdentityNodes_spec_witness :
    (foldIdentity gIdEx idNodeEx.id).nodes =
      gIdEx.nodes.filter (fun m => m.id ≠ idNodeEx.id) :=
  ((removeIdentityNodes_spec gIdEx idNodeEx (by decide) (by decide)
      (by decide)).2.2 idEdgeEx (by decide) (by decide)).1

/-! ## `RemoveListArrayConverter` -/

/-- Outcome of processing one converter node: arity mismatch is
skipped, success removes the node, an inconsistency aborts. -/
inductive ConvOutcome where
  | skipped
  | removed
  | aborted
deriving DecidableEq, Repr

/-- Input-edge loop of `RemoveListArrayConverter`: control in-edges are
routed into a lazily created no-op barrier; each data in-edge gets an
`Identity` node for its destination slot; a duplicate destination slot
is the "unexpected duplicated input" error, which returns out of the
whole pass with the partially rewritten graph. -/
def convInLoop : Graph → List (Option Nat) → Option Nat → List GEdge →
    Except Graph (Graph × List (Option Nat) × Option Nat)
  | g, slots, icn, [] => .ok (g, slots, icn)
  | g, slots, icn, e :: rest =>
    if e.isControl then
      match icn with
      | some c => convInLoop (g.addControlEdge e.src c) slots (some c) rest
      | none =>
        let (g1, c) := AddNoOp g
        convInLoop (g1.addControlEdge e.src c) slots (some c) rest
    else
      match slots.getD e.dstInput none with
      | some _ => .error g
      | none =>
        let (g1, idn) := AddIdentity g (e.src, e.srcOutput)
        convInLoop g1 (slots.set e.dstInput (some idn)) icn rest

/-- When a control barrier exists, every created identity node gets a
control dependency on it. -/
def addIcnEdges (g : Graph) (icn : Option Nat) (slots : List (Option Nat)) :
    Graph :=
  match icn with
  | none => g
  | some c =>
    slots.foldl (fun acc s =>
      match s with
      | some idn => acc.addControlEdge c idn
      | none => acc) g

/-- Output-edge loop: control out-edges are routed from a lazily
created no-op barrier; each data out-edge is re-sourced from the
identity node of its source slot; a missing slot ("unexpected missing
input") returns out of the whole pass. -/
def convOutLoop : Graph → List (Option Nat) → Option Nat → List GEdge →
    Except Graph (Graph × Option Nat)
  | g, _, ocn, [] => .ok (g, ocn)
  | g, slots, ocn, e :: rest =>
    if e.isControl then
      match ocn with
      | some c => convOutLoop (g.addControlEdge c e.dst) slots (some c) rest
      | none =>
        let (g1, c) := AddNoOp g
        convOutLoop (g1.addControlEdge c e.dst) slots (some c) rest
    else
      match slots.getD e.srcOutput none with
      | none => .error g
      | some idn => convOutLoop (g.addEdge idn 0 e.dst e.dstInput) slots ocn rest

/-- When an output barrier exists, it control-depends on every created
identity node. -/
def addOcnEdges (g : Graph) (ocn : Option Nat) (slots : List (Option Nat)) :
    Graph :=
  match ocn with
  | none => g
  | some c =>
    slots.foldl (fun acc s =>
      match s with
      | some idn => acc.addControlEdge idn c
      | none => acc) g

/-- Processing of one `_ListToArray`/`_ArrayToList` node inside
`RemoveListArrayConverter`'s rewrite loop. -/
def rewriteOneConverter (g : Graph) (n : GNode) : Graph × ConvOutcome :=
  if n.numInputs ≠ n.numOutputs then (g, .skipped)
  else
    match convInLoop g (List.replicate n.numInputs none) none (g.inEdges n.id) with
    | .error g1 => (g1, .aborted)
    | .ok (g1, slots, icn) =>
      let g2 := addIcnEdges g1 icn slots
      match convOutLoop g2 slots none (g2.outEdges n.id) with
      | .error g3 => (g3, .aborted)
      | .ok (g3, ocn) =>
        let g4 := addOcnEdges g3 ocn slots
        (g4.removeNode n.id, .removed)

/-- The converter match predicate of the initial scan. -/
def isConverter (n : GNode) : Bool :=
  n.op = "_ListToArray" || n.op = "_ArrayToList"

/-- The rewrite loop over all matches; an aborted rewrite returns
immediately with the accumulated `removed_any` flag. -/
def convLoop : Graph → Bool → List GNode → Graph × Bool
  | g, acc, [] => (g, acc)
  | g, acc, n :: rest =>
    match rewriteOneConverter g n with
    | (g1, .skipped) => convLoop g1 acc rest
    | (g1, .removed) => convLoop g1 true rest
    | (g1, .aborted) => (g1, acc)

/-- `RemoveListArrayConverter`. -/
def RemoveListArrayConverter (g : Graph) : Graph × Bool :=
  convLoop g false (g.nodes.filter isConverter)

lemma mem_nodes_addControlEdge {g : Graph} {a b : Nat} {m : GNode} :
    m ∈ (g.addControlEdge a b).nodes ↔ m ∈ g.nodes := Iff.rfl

lemma mem_nodes_addEdge {g : Graph} {a b c d : Nat} {m : GNode} :
    m ∈ (g.addEdge a b c d).nodes ↔ m ∈ g.nodes := Iff.rfl

lemma mem_nodes_addNoOp {g : Graph} {m : GNode} (h : m ∈ g.nodes) :
    m ∈ (AddNoOp g).1.nodes :=
  List.mem_append_left _ h

lemma mem_nodes_addIdentity {g : Graph} {p : Nat × Nat} {m : GNode}
    (h : m ∈ g.nodes) : m ∈ (AddIdentity g p).1.nodes :=
  List.mem_append_left _ h

lemma convInLoop_nodes_mono {m : GNode} :
    ∀ (es : List GEdge) (g : Graph) (slots : List (Option Nat))
      (icn : Option Nat), m ∈ g.nodes →
      (∀ g' s' i', convInLoop g slots icn es = .ok (g', s', i') → m ∈ g'.nodes) ∧
      (∀ g', convInLoop g slots icn es = .error g' → m ∈ g'.nodes) := by
  intro es
  induction es with
  | nil =>
    intro g slots icn hm
    refine ⟨fun g' s' i' h => ?_, fun g' h => ?_⟩
    · cases h
      exact hm
    · cases h
  | cons e rest ih =>
    intro g slots icn hm
    refine ⟨fun g' s' i' h => ?_, fun g' h => ?_⟩
    · unfold convInLoop at h
      split at h
      · split at h
        · refine (ih _ _ _ ?_).1 _ _ _ h
          exact hm
        · refine (ih _ _ _ ?_).1 _ _ _ h
          exact mem_nodes_addNoOp hm
      · split at h
        · cases h
        · refine (ih _ _ _ ?_).1 _ _ _ h
          exact mem_nodes_addIdentity hm
    · unfold convInLoop at h
      split at h
      · split at h
        · refine (ih _ _ _ ?_).2 _ h
          exact hm
        · refine (ih _ _ _ ?_).2 _ h
          exact mem_nodes_addNoOp hm
      · split at h
        · cases h
          exact hm
        · refine (ih _ _ _ ?_).2 _ h
          exact mem_nodes_addIdentity hm

lemma addIcnEdges_nodes {g : Graph} {icn : Option Nat}
    {slots : List (Option Nat)} : (addIcnEdges g icn slots).nodes = g.nodes := by
  cases icn with
  | none => rfl
  | some c =>
    show (slots.foldl _ g).nodes = g.nodes
    induction slots generalizing g with
    | nil => rfl
    | cons s rest ih =>
      cases s with
      | none => exact ih
      | some idn => exact ih

lemma addOcnEdges_nodes {g : Graph} {ocn : Option Nat}
    {slots : List (Option Nat)} : (addOcnEdges g ocn slots).nodes = g.nodes := by
  cases ocn with
  | none => rfl
  | some c =>
    show (slots.foldl _ g).nodes = g.nodes
    induction slots generalizing g with
    | nil => rfl
    | cons s rest ih =>
      cases s with
      | none => exact ih
      | some idn => exact ih

lemma convOutLoop_nodes_mono {m : GNode} :
    ∀ (es : List GEdge) (g : Graph) (slots : List (Option Nat))
      (ocn : Option Nat), m ∈ g.nodes →
      (∀ g' o', convOutLoop g slots ocn es = .ok (g', o') → m ∈ g'.nodes) ∧
      (∀ g', convOutLoop g slots ocn es = .error g' → m ∈ g'.nodes) := by
  intro es
  induction es with
  | nil =>
    intro g slots ocn hm
    refine ⟨fun g' o' h => ?_, fun g' h => ?_⟩
    · cases h
      exact hm
    · cases h
  | cons e rest ih =>
    intro g slots ocn hm
    refine ⟨fun g' o' h => ?_, fun g' h => ?_⟩
    · unfold convOutLoop at h
      split at h
      · split at h
        · refine (ih _ _ _ ?_).1 _ _ h
          exact hm
        · refine (ih _ _ _ ?_).1 _ _ h
          exact mem_nodes_addNoOp hm
      · split at h
        · cases h
        · refine (ih _ _ _ ?_).1 _ _ h
          exact hm
    · unfold convOutLoop at h
      split at h
      · split at h
        · refine (ih _ _ _ ?_).2 _ h
          exact hm
        · refine (ih _ _ _ ?_).2 _ h
          exact mem_nodes_addNoOp hm
      · split at h
        · cases h
          exact hm
        · refine (ih _ _ _ ?_).2 _ h
          exact hm

lemma rewriteOneConverter_aborted_nodes {g : Graph} {n : GNode} {g' : Graph}
    (h : rewriteOneConverter g n = (g', ConvOutcome.aborted)) :
    ∀ m ∈ g.nodes, m ∈ g'.nodes := by
  intro m hm
  unfold rewriteOneConverter at h
  by_cases harity : n.numInputs ≠ n.numOutputs
  · rw [if_pos harity] at h
    cases h
  · rw [if_neg harity] at h
    split at h
    next g1 heq =>
      cases h
      exact (convInLoop_nodes_mono _ _ _ _ hm).2 _ heq
    next g1 slots icn heq =>
      simp only at h
      split at h
      next g3 heq2 =>
        cases h
        have hm1 : m ∈ (addIcnEdges g1 icn slots).nodes := by
          rw [addIcnEdges_nodes]
          exact (convInLoop_nodes_mono _ _ _ _ hm).1 _ _ _ heq
        exact (convOutLoop_nodes_mono _ _ _ _ hm1).2 _ heq2
      next g3 ocn heq2 =>
        exact absurd (congrArg Prod.snd h) (by simp)

/-- Claim C4 (amended): a duplicate data-input slot aborts the entire
`RemoveListArrayConverter` pass — the loop returns immediately with the
graph as rewritten so far and the `removed_any` flag accumulated so
far; no node is removed on the abort path (the failing node and every
remaining converter node stay in the graph unprocessed). -/
theorem removeListArrayConverter_abort (g : Graph) (n : GNode) (g' : Graph)
    (rest : List GNode) (acc : Bool)
    (h : rewriteOneConverter g n = (g', ConvOutcome.aborted)) :
    convLoop g acc (n :: rest) = (g', acc) ∧ ∀ m ∈ g.nodes, m ∈ g'.nodes := by
  constructor
  · unfold convLoop
    rw [h]
  · exact rewriteOneConverter_aborted_nodes h

/-- A converter node with a duplicated data-input slot (two data edges
both arriving at destination input 0). -/
def convBadEx : GNode :=
  { id := 10, name := "bad", op := "_ListToArray", isSource := false,
    isSink := false, isControlFlow := false, isStateful := false,
    inputTypes := [1], outputTypes := [1] }

/-- A well-formed converter node (one data input, one data output). -/
def convGoodEx : GNode :=
  { id := 20, name := "good", op := "_ArrayToList", isSource := false,
    isSink := false, isControlFlow := false, isStateful := false,
    inputTypes := [1], outputTypes := [1] }

/-- The malformed converter appears before the valid one in the scan
order. -/
def gConvEx : Graph :=
  { nextId := 21,
    nodes :=
      [ { id := 1, name := "p1", op := "P", isSource := false, isSink := false,
          isControlFlow := false, isStateful := false,
          inputTypes := [], outputTypes := [1] },
        { id := 2, name := "p2", op := "P", isSource := false, isSink := false,
          isControlFlow := false, isStateful := false,
          inputTypes := [], outputTypes := [1] },
        { id := 3, name := "p3", op := "P", isSource := false, isSink := false,
          isControlFlow := false, isStateful := false,
          inputTypes := [], outputTypes := [1] },
        { id := 4, name := "c", op := "C", isSource := false, isSink := false,
          isControlFlow := false, isStateful := false,
          inputTypes := [1], outputTypes := [] },
        convBadEx,
        convGoodEx ],
    edges :=
      [ { src := 1, srcOutput := 0, dst := 10, dstInput := 0, isControl := false },
        { src := 2, srcOutput := 0, dst := 10, dstInput := 0, isControl := false },
        { src := 3, srcOutput := 0, dst := 20, dstInput := 0, isControl := false },
        { src := 20, srcOutput := 0, dst := 4, dstInput := 0, isControl := false } ] }

/-- The same graph without the malformed converter and its edges. -/
def gConvGoodOnly : Graph :=
  { nextId := 21,
    nodes :=
      [ { id := 3, name := "p3", op := "P", isSource := false, isSink := false,
          isControlFlow := false, isStateful := false,
          inputTypes := [], outputTypes := [1] },
        { id := 4, name := "c", op := "C", isSource := false, isSink := false,
          isControlFlow := false, isStateful := false,
          inputTypes := [1], outputTypes := [] },
        convGoodEx ],
    edges :=
      [ { src := 3, srcOutput := 0, dst := 20, dstInput := 0, isControl := false },
        { src := 20, srcOutput := 0, dst := 4, dstInput := 0, isControl := false } ] }

/-- Claim C4 is false as stated: after the duplicated-input abort at
the first converter, the valid converter node 20 is left unprocessed
(it stays in the graph and the pass reports no change), although the
very same node is rewritten and removed when the pass reaches it. -/
theorem removeListArrayConverter_claim_counterexample :
    (∃ n ∈ (RemoveListArrayConverter gConvEx).1.nodes, n.id = 20) ∧
    (RemoveListArrayConverter gConvEx).2 = false ∧
    (¬ ∃ n ∈ (RemoveListArrayConverter gConvGoodOnly).1.nodes, n.id = 20) ∧
    (RemoveListArrayConverter gConvGoodOnly).2 = true := by
  decide

theorem removeListArrayConverter_abort_witness :
    rewriteOneConverter gConvEx convBadEx =
        ((rewriteOneConverter gConvEx convBadEx).1, ConvOutcome.aborted) ∧
    convLoop gConvEx false [convBadEx, convGoodEx] =
        ((rewriteOneConverter gConvEx convBadEx).1, false) :=
  ⟨by decide,
   (removeListArrayConverter_abort gConvEx convBadEx
      (rewriteOneConverter gConvEx convBadEx).1 [convGoodEx] false (by decide)).1⟩

/-! ## `FunctionBody`, `ValidateInlining`, `InlineFunctionBody`,
`ExpandInlineFunctions` -/

/-- `FunctionBody`: a graph bound to its formal argument/return node
lists (node ids, index = formal position) and type signature. -/
structure FBody where
  graph : Graph
  argTypes : List DType
  retTypes : List DType
  argNodes : List Nat
  retNodes : List Nat
deriving DecidableEq, Repr

/-- `ValidateInlining(node, fbody)`: arity and per-position type
equality of inputs and outputs between the call node and the callee
signature. -/
def ValidateInlining (node : GNode) (fbody : FBody) : Bool :=
  if node.numInputs ≠ fbody.argTypes.length then false
  else if node.numInputs ≠ fbody.argNodes.length then false
  else if node.numOutputs ≠ fbody.retTypes.length then false
  else if node.numOutputs ≠ fbody.retNodes.length then false
  else if (List.range node.numInputs).any
      (fun i => node.inputTypes.getD i 0 ≠ fbody.argTypes.getD i 0) then false
  else if (List.range node.numOutputs).any
      (fun i => node.outputTypes.getD i 0 ≠ fbody.retTypes.getD i 0) then false
  else true

/-- Is node id `i` the source or sink node of graph `fb`? -/
def isSrcSink (fb : Graph) (i : Nat) : Bool :=
  match fb.findNode i with
  | some n => n.isSource || n.isSink
  | none => false

/-- `node_map` lookup (0 when the id was never copied, mirroring an
out-of-contract read of the map vector). -/
def mapLookup (m : List (Nat × Nat)) (i : Nat) : Nat :=
  ((m.find? (fun p => p.1 = i)).map (·.2)).getD 0

/-- Copy every op node of the callee graph into `g` under a
caller-qualified name, building the old-id to new-id map. -/
def copyFBodyNodes (g : Graph) (caller : GNode) :
    List GNode → Graph × List (Nat × Nat)
  | [] => (g, [])
  | n :: rest =>
    if n.isSource || n.isSink then copyFBodyNodes g caller rest
    else
      let r := g.addNode (caller.name ++ "/" ++ n.name) n.op
        n.inputTypes n.outputTypes
      let r2 := copyFBodyNodes r.1 caller rest
      (r2.1, (n.id, r.2) :: r2.2)

/-- Copy every edge among copied nodes (edges touching the callee
source or sink are skipped). -/
def copyFBodyEdges (g : Graph) (fb : FBody) (nmap : List (Nat × Nat)) : Graph :=
  fb.graph.edges.foldl (fun acc e =>
    if isSrcSink fb.graph e.src || isSrcSink fb.graph e.dst then acc
    else
      { acc with edges := acc.edges ++
          [{ src := mapLookup nmap e.src, srcOutput := e.srcOutput,
             dst := mapLookup nmap e.dst, dstInput := e.dstInput,
             isControl := e.isControl }] }) g

/-- Caller in-edge loop: records the source endpoint of each data
input slot and routes control in-edges through a lazily created no-op
barrier. -/
def inlineInputsLoop : Graph → List (Nat × Nat) → Option Nat → List GEdge →
    Graph × List (Nat × Nat) × Option Nat
  | g, inputs, icn, [] => (g, inputs, icn)
  | g, inputs, icn, e :: rest =>
    if e.isControl then
      match icn with
      | some c => inlineInputsLoop (g.addControlEdge e.src c) inputs (some c) rest
      | none =>
        let r := AddNoOp g
        inlineInputsLoop (r.1.addControlEdge e.src r.2) inputs (some r.2) rest
    else
      inlineInputsLoop g (inputs.set e.dstInput (e.src, e.srcOutput)) icn rest

/-- Per-argument splice: an identity node fed by the caller input
endpoint replaces the copied `_Arg` node; its out-edges are redirected
and the copy removed; the map entry is updated to the identity. -/
def spliceArgsLoop : Graph → List (Nat × Nat) → Option Nat →
    List (Nat × (Nat × Nat)) → Graph × List (Nat × Nat)
  | g, nmap, _, [] => (g, nmap)
  | g, nmap, icn, (argId, input) :: rest =>
    let argCopy := mapLookup nmap argId
    let r := AddIdentity g input
    let g2 := match icn with
      | some c => r.1.addControlEdge c r.2
      | none => r.1
    let g3 := (g2.outEdges argCopy).foldl (fun acc e =>
        if e.isControl then acc.addControlEdge r.2 e.dst
        else acc.addEdge r.2 0 e.dst e.dstInput) g2
    spliceArgsLoop (g3.removeNode argCopy) ((argId, r.2) :: nmap) icn rest

/-- Per-return splice: an identity node fed by the copied `_Retval`
node's data input stands in for the return position; control in-edges
are re-attached and the copy removed. -/
def spliceRetsLoop : Graph → List (Nat × Nat) → List Nat → Graph × List Nat
  | g, _, [] => (g, [])
  | g, nmap, retId :: rest =>
    let retCopy := mapLookup nmap retId
    let data := match (g.inEdges retCopy).find? (fun e => ¬ e.isControl) with
      | some e => (e.src, e.srcOutput)
      | none => (0, 0)
    let r := AddIdentity g data
    let g2 := (r.1.inEdges retCopy).foldl (fun acc e =>
        if e.isControl then acc.addControlEdge e.src r.2 else acc) r.1
    let r2 := spliceRetsLoop (g2.removeNode retCopy) nmap rest
    (r2.1, r.2 :: r2.2)

/-- Caller out-edge loop: data out-edges are re-sourced from the
per-return identity of their slot; control out-edges are routed
through a lazily created output barrier depending on all return
identities. -/
def inlineOutputsLoop : Graph → List Nat → Option Nat → List GEdge → Graph
  | g, _, _, [] => g
  | g, outs, ocn, e :: rest =>
    if e.isControl then
      match ocn with
      | some c => inlineOutputsLoop (g.addControlEdge c e.dst) outs (some c) rest
      | none =>
        let r := AddNoOp g
        let g2 := outs.foldl (fun acc o => acc.addControlEdge o r.2) r.1
        inlineOutputsLoop (g2.addControlEdge r.2 e.dst) outs (some r.2) rest
    else
      inlineOutputsLoop (g.addEdge (outs.getD e.srcOutput 0) 0 e.dst e.dstInput)
        outs ocn rest

/-- The body of `InlineFunctionBody` after validation: copy the callee
graph, splice inputs and outputs, and remove the call node. -/
def inlineFunctionBodyCore (g : Graph) (caller : GNode) (fbody : FBody) :
    Graph :=
  let r1 := copyFBodyNodes g caller fbody.graph.nodes
  let g2 := copyFBodyEdges r1.1 fbody r1.2
  let r3 := inlineInputsLoop g2 (List.replicate caller.numInputs (0, 0)) none
    (g2.inEdges caller.id)
  let r4 := spliceArgsLoop r3.1 r1.2 r3.2.2 (fbody.argNodes.zip r3.2.1)
  let r5 := spliceRetsLoop r4.1 r4.2 fbody.retNodes
  let g6 := inlineOutputsLoop r5.1 r5.2 none (r5.1.outEdges caller.id)
  g6.removeNode caller.id

/-- `InlineFunctionBody`: on a validation mismatch, log and leave the
graph unchanged; otherwise inline. -/
def InlineFunctionBody (g : Graph) (caller : GNode) (fbody : FBody) : Graph :=
  if ValidateInlining caller fbody then inlineFunctionBodyCore g caller fbody
  else g

/-- `ExpandInlineFunctions`: one scan collects every node whose op
resolves to an instantiated function body; each candidate is then
inlined; returns whether any candidate was found. -/
def ExpandInlineFunctions (lib : String → Option FBody) (g : Graph) :
    Graph × Bool :=
  let candidates := g.nodes.filterMap (fun n => (lib n.op).map (fun fb => (n, fb)))
  (candidates.foldl (fun acc p => InlineFunctionBody acc p.1 p.2) g,
   !candidates.isEmpty)

/-- Claim C5 (amended): `ExpandInlineFunctions` returns true iff the
scan found at least one node that resolves to a function body — even
when no inlining occurred; a candidate failing `ValidateInlining` is
skipped, leaving the graph unchanged for that node while the remaining
candidates of the same scan are still processed; a candidate passing
validation has its call node removed from the graph. -/
theorem expandInlineFunctions_spec (lib : String → Option FBody) (g : Graph)
    (caller : GNode) (fbody : FBody) :
    ((ExpandInlineFunctions lib g).2 = true ↔
        ∃ n ∈ g.nodes, (lib n.op).isSome) ∧
    (ValidateInlining caller fbody = false →
        InlineFunctionBody g caller fbody = g) ∧
    (ValidateInlining caller fbody = false → ∀ (rest : List (GNode × FBody)),
        ((caller, fbody) :: rest).foldl
            (fun acc p => InlineFunctionBody acc p.1 p.2) g =
          rest.foldl (fun acc p => InlineFunctionBody acc p.1 p.2) g) ∧
    (ValidateInlining caller fbody = true →
        ∀ m ∈ (InlineFunctionBody g caller fbody).nodes, m.id ≠ caller.id) := by
  refine ⟨?_, ?_, ?_, ?_⟩
  · show (!(g.nodes.filterMap
        (fun n => (lib n.op).map (fun fb => (n, fb)))).isEmpty) = true ↔ _
    simp [List.isEmpty_iff, List.filterMap_eq_nil_iff, Option.isSome_iff_ne_none]
  · intro h
    simp [InlineFunctionBody, h]
  · intro h rest
    simp [List.foldl_cons, InlineFunctionBody, h]
  · intro h m hm
    unfold InlineFunctionBody at hm
    rw [if_pos h] at hm
    unfold inlineFunctionBodyCore at hm
    simp only [Graph.removeNode, List.mem_filter, decide_eq_true_eq] at hm
    exact hm.2

/-- A call node whose arity does not match the callee it resolves to. -/
def callBadEx : GNode :=
  { id := 5, name := "call", op := "F", isSource := false, isSink := false,
    isControlFlow := false, isStateful := false,
    inputTypes := [1], outputTypes := [1] }

/-- A function body with no arguments and no returns. -/
def fbBadEx : FBody :=
  { graph := { nextId := 0, nodes := [], edges := [] },
    argTypes := [], retTypes := [], argNodes := [], retNodes := [] }

def gInlEx : Graph :=
  { nextId := 6, nodes := [callBadEx], edges := [] }

def libInlEx : String → Option FBody :=
  fun s => if s = "F" then some fbBadEx else none

/-- Claim C5 is false as stated: the only candidate fails validation,
so the pass changes nothing, yet `ExpandInlineFunctions` still returns
true — "returns true iff it changed the graph" does not hold. -/
theorem expandInlineFunctions_claim_counterexample :
    (ExpandInlineFunctions libInlEx gInlEx).1 = gInlEx ∧
    (ExpandInlineFunctions libInlEx gInlEx).2 = true := by
  decide

theorem expandInlineFunctions_spec_witness :
    ValidateInlining callBadEx fbBadEx = false ∧
    InlineFunctionBody gInlEx callBadEx fbBadEx = gInlEx :=
  ⟨by decide,
   (expandInlineFunctions_spec libInlEx gInlEx callBadEx fbBadEx).2.1 (by decide)⟩

/-! ## `SymbolicGradientHelper::Compute` -/

/-- `SymbolicGradientHelper::Copy`: deep-copy of the function body into
a fresh graph; `CopyNode`/`AddEdge` preserve ops, types and endpoints,
so with stable integer ids the node map is the identity. -/
def sgCopy (f : FBody) : FBody :=
  { graph := { nextId := f.graph.nextId, nodes := f.graph.nodes,
               edges := f.graph.edges },
    argTypes := f.argTypes, retTypes := f.retTypes,
    argNodes := f.argNodes, retNodes := f.retNodes }

/-- `y->input_type(0)` of the node with id `i`. -/
def retSeedType (g : Graph) (i : Nat) : DType :=
  ((g.findNode i).map (fun n => n.inputTypes.getD 0 0)).getD 0

/-- The y-grad loop of `Compute`: for each original return node, a new
`_Arg` node of the return's data type is appended after the original
arguments; returns the created seed-argument node ids. -/
def addYGrads : FBody → List Nat → FBody × List Nat
  | gb, [] => (gb, [])
  | gb, y :: rest =>
    let dtype := retSeedType gb.graph y
    let r := AddArg gb.graph dtype gb.argNodes.length
    let gb1 : FBody :=
      { gb with graph := r.1,
                argTypes := gb.argTypes ++ [dtype],
                argNodes := gb.argNodes ++ [r.2] }
    let r2 := addYGrads gb1 rest
    (r2.1, r.2 :: r2.2)

/-- The new-return loop of `Compute`: one `_Retval` node per original
argument type, wired to the gradient endpoint of that argument. -/
def addRetsLoop : Graph → (Nat → Nat × Nat) → Nat → List DType →
    Graph × List Nat
  | g, _, _, [] => (g, [])
  | g, gradOf, i, _ :: rest =>
    let r := AddRet g (gradOf i) i
    let r2 := addRetsLoop r.1 gradOf (i + 1) rest
    (r2.1, r.2 :: r2.2)

/-- `SymbolicGradientHelper::Compute`.  The external collaborator
`AddSymbolicGradients` (graph differentiation) is abstracted by
`addGrad` (the nodes it adds to the graph) and `gradOf` (the per-x
gradient output endpoints it reports): copy the body, append one seed
argument per return, differentiate, remove the copied return nodes,
and emit one new return per original argument. -/
def sgCompute (addGrad : Graph → Graph) (gradOf : Nat → Nat × Nat)
    (f : FBody) : FBody :=
  let gb := sgCopy f
  let r := addYGrads gb gb.retNodes
  let gb1 := r.1
  let g2 := addGrad gb1.graph
  let g3 := gb1.retNodes.foldl (fun acc y => acc.removeNode y) g2
  let r2 := addRetsLoop g3 gradOf 0 f.argTypes
  { graph := r2.1,
    argTypes := gb1.argTypes,
    retTypes := f.argTypes,
    argNodes := gb1.argNodes,
    retNodes := r2.2 }

/-- `SymbolicGradient(f)`. -/
def SymbolicGradient (addGrad : Graph → Graph) (gradOf : Nat → Nat × Nat)
    (f : FBody) : FBody :=
  sgCompute addGrad gradOf f

lemma findNode_addArg {g : Graph} {d idx i : Nat}
    (h : (g.findNode i).isSome) :
    (AddArg g d idx).1.findNode i = g.findNode i := by
  show (g.nodes ++ [_]).find? (fun n => n.id = i) = g.nodes.find? (fun n => n.id = i)
  rw [List.find?_append]
  obtain ⟨n, hn⟩ := Option.isSome_iff_exists.mp h
  rw [show g.nodes.find? (fun n => n.id = i) = some n from hn]
  rfl

lemma retSeedType_addArg {g : Graph} {d idx i : Nat}
    (h : (g.findNode i).isSome) :
    retSeedType (AddArg g d idx).1 i = retSeedType g i := by
  unfold retSeedType
  rw [findNode_addArg h]

lemma findNode_addArg_isSome {g : Graph} {d idx i : Nat}
    (h : (g.findNode i).isSome) :
    ((AddArg g d idx).1.findNode i).isSome := by
  rw [findNode_addArg h]
  exact h

lemma addYGrads_spec :
    ∀ (ys : List Nat) (gb : FBody),
      (∀ y ∈ ys, (gb.graph.findNode y).isSome) →
      (addYGrads gb ys).1.argTypes =
          gb.argTypes ++ ys.map (retSeedType gb.graph) ∧
      (addYGrads gb ys).1.argNodes.length = gb.argNodes.length + ys.length ∧
      (addYGrads gb ys).1.retTypes = gb.retTypes ∧
      (addYGrads gb ys).1.retNodes = gb.retNodes := by
  intro ys
  induction ys with
  | nil =>
    intro gb _
    simp [addYGrads]
  | cons y rest ih =>
    intro gb hfind
    have hy : (gb.graph.findNode y).isSome := hfind y (List.mem_cons_self y rest)
    set d := retSeedType gb.graph y with hd
    set gb1 : FBody :=
      { gb with graph := (AddArg gb.graph d gb.argNodes.length).1,
                argTypes := gb.argTypes ++ [d],
                argNodes := gb.argNodes ++ [(AddArg gb.graph d gb.argNodes.length).2] }
      with hgb1
    have hrest : ∀ y' ∈ rest, (gb1.graph.findNode y').isSome := by
      intro y' hy'
      exact @findNode_addArg_isSome gb.graph d gb.argNodes.length y'
        (hfind y' (List.mem_cons_of_mem y hy'))
    have hmap : rest.map (retSeedType gb1.graph) =
        rest.map (retSeedType gb.graph) := by
      refine List.map_congr_left ?_
      intro y' hy'
      exact @retSeedType_addArg gb.graph d gb.argNodes.length y'
        (hfind y' (List.mem_cons_of_mem y hy'))
    obtain ⟨h1, h2, h3, h4⟩ := ih gb1 hrest
    refine ⟨?_, ?_, ?_, ?_⟩
    · show (addYGrads gb1 rest).1.argTypes = _
      rw [h1]
      show (gb.argTypes ++ [d]) ++ rest.map (retSeedType gb1.graph) = _
      rw [hmap, List.append_assoc]
      rfl
    · show (addYGrads gb1 rest).1.argNodes.length = _
      rw [h2]
      show (gb.argNodes ++ [_]).length + rest.length = _
      simp [List.length_append]
      omega
    · exact h3
    · exact h4

lemma addRetsLoop_len :
    ∀ (ts : List DType) (g : Graph) (gradOf : Nat → Nat × Nat) (i : Nat),
      (addRetsLoop g gradOf i ts).2.length = ts.length := by
  intro ts
  induction ts with
  | nil => intro g gradOf i; rfl
  | cons t rest ih =>
    intro g gradOf i
    show ((addRetsLoop _ gradOf (i+1) rest).2.cons _).length = _
    simp [ih]

/-- Claim C6: for a function body `f` with K arguments and L returns,
the gradient body `g` has argument types `f.argTypes ++ f.retTypes`
(K+L arguments, the last L being one seed per original return, each of
that return's data type) and return types `f.argTypes` (K returns, in
original argument order). -/
theorem symbolicGradient_types (addGrad : Graph → Graph)
    (gradOf : Nat → Nat × Nat) (f : FBody)
    (hrets : f.retNodes.map (retSeedType f.graph) = f.retTypes)
    (hfind : ∀ y ∈ f.retNodes, (f.graph.findNode y).isSome) :
    (SymbolicGradient addGrad gradOf f).argTypes = f.argTypes ++ f.retTypes ∧
    (SymbolicGradient addGrad gradOf f).retTypes = f.argTypes ∧
    (SymbolicGradient addGrad gradOf f).argNodes.length =
        f.argNodes.length + f.retNodes.length ∧
    (SymbolicGradient addGrad gradOf f).retNodes.length =
        f.argTypes.length := by
  obtain ⟨h1, h2, h3, h4⟩ :=
    addYGrads_spec f.retNodes (sgCopy f) (fun y hy => hfind y hy)
  refine ⟨?_, ?_, ?_, ?_⟩
  · show (addYGrads (sgCopy f) (sgCopy f).retNodes).1.argTypes = _
    have hm : List.map (retSeedType (sgCopy f).graph) f.retNodes =
        f.retTypes := hrets
    calc (addYGrads (sgCopy f) (sgCopy f).retNodes).1.argTypes
        = (sgCopy f).argTypes ++
            List.map (retSeedType (sgCopy f).graph) f.retNodes := h1
      _ = f.argTypes ++ f.retTypes := by
            rw [hm]
            rfl
  · rfl
  · show (addYGrads (sgCopy f) (sgCopy f).retNodes).1.argNodes.length = _
    calc (addYGrads (sgCopy f) (sgCopy f).retNodes).1.argNodes.length
        = (sgCopy f).argNodes.length + f.retNodes.length := h2
      _ = f.argNodes.length + f.retNodes.length := rfl
  · exact addRetsLoop_len f.argTypes _ gradOf 0

/-- A one-argument, one-return function body. -/
def fGradEx : FBody :=
  { graph :=
      { nextId := 2,
        nodes :=
          [ { id := 0, name := "a", op := "_Arg", isSource := false,
              isSink := false, isControlFlow := false, isStateful := false,
              inputTypes := [], outputTypes := [1] },
            { id := 1, name := "r", op := "_Retval", isSource := false,
              isSink := false, isControlFlow := false, isStateful := false,
              inputTypes := [7], outputTypes := [] } ],
        edges :=
          [ { src := 0, srcOutput := 0, dst := 1, dstInput := 0,
              isControl := false } ] },
    argTypes := [1], retTypes := [7], argNodes := [0], retNodes := [1] }

theorem symbolicGradient_types_witness :
    (SymbolicGradient (fun g => g) (fun i => (i, 0)) fGradEx).argTypes =
        fGradEx.argTypes ++ fGradEx.retTypes ∧
    (SymbolicGradient (fun g => g) (fun i => (i, 0)) fGradEx).retTypes =
        fGradEx.argTypes ∧
    (SymbolicGradient (fun g => g) (fun i => (i, 0)) fGradEx).argNodes.length =
        fGradEx.argNodes.length + fGradEx.retNodes.length ∧
    (SymbolicGradient (fun g => g) (fun i => (i, 0)) fGradEx).retNodes.length =
        fGradEx.argTypes.length :=
  symbolicGradient_types (fun g => g) (fun i => (i, 0)) fGradEx
    (by decide) (by decide)

/-! ## Instantiation cache (`FunctionLibraryRuntimeImpl`) -/

/-- A function template from the library (`FunctionDef`); its contents
are consumed only by external collaborators. -/
structure FunctionDef where
  name : String
deriving DecidableEq, Repr

/-- `InstantiateAttrValueMap`, canonicalized by `Canonicalize`. -/
abbrev AttrMap := List (String × String)

/-- Status codes surfaced by `Instantiate`. -/
inductive RtError where
  | notFound (msg : String)
  | invalidArgument (msg : String)
  | other (msg : String)
deriving DecidableEq, Repr

/-- The mutex-guarded state of the runtime: the canonical-key table
`table_`, the append-only `func_graphs_` vector of FunctionBody
pointers (handle-indexed; `none` is a null pointer), and the `items_`
vector (Items identified by integer tags; `none` is an empty slot). -/
structure FnState where
  table : List (String × Nat)
  funcGraphs : List (Option FBody)
  items : List (Option Nat)
deriving DecidableEq, Repr

/-- The external collaborators of `Instantiate`: the function library
(`lib_def_->Find`), the `Canonicalize` key, the template substitution
and graph conversion inside `FunctionDefToBody` (which on success
yields a freshly constructed `FunctionBody`), and
`InstantiateSymbolicGradient`'s gradient resolution — whose own
recursive `Instantiate` calls appear as separate steps of the runtime
transition relation. -/
structure LibEnv where
  lib : String → Option FunctionDef
  canon : String → AttrMap → String
  buildBody : FunctionDef → AttrMap → Except RtError FBody
  gradBuild : AttrMap → Except RtError FBody

/-- `gtl::FindWithDefault(table_, key, kInvalidHandle)`. -/
def lookupTable (t : List (String × Nat)) (k : String) : Option Nat :=
  (t.find? (fun p => p.1 = k)).map (·.2)

/-- `items_.resize(n)`: truncate or pad with empty slots. -/
def resizeItems (items : List (Option Nat)) (n : Nat) : List (Option Nat) :=
  items.take n ++ List.replicate (n - items.length) none

/-- The second critical section of `Instantiate` (re-check under the
lock): if another caller installed the key while building, delete the
just-built body (`true` in the last component) and return the existing
handle; otherwise register the key under the next handle, append the
body, and grow the item table. -/
def instantiateFinish (st : FnState) (key : String) (fbody : FBody) :
    FnState × Nat × Bool :=
  match lookupTable st.table key with
  | some h => (st, h, true)
  | none =>
    let h := st.funcGraphs.length
    ({ table := (key, h) :: st.table,
       funcGraphs := st.funcGraphs ++ [some fbody],
       items := resizeItems st.items (st.funcGraphs.length + 1) }, h, false)

/-- The body-construction step of `Instantiate` (between the two lock
sections): the gradient pseudo-op path or the library lookup followed
by `FunctionDefToBody`; an unknown non-gradient name is the not-found
error. -/
def instantiateBuild (env : LibEnv) (name : String) (attrs : AttrMap) :
    Except RtError FBody :=
  if name = "SymbolicGradient" then env.gradBuild attrs
  else
    match env.lib name with
    | none => .error (.notFound ("Function " ++ name ++ " is not defined."))
    | some fdef => env.buildBody fdef attrs

/-- `FunctionLibraryRuntimeImpl::Instantiate`. -/
def instantiate (env : LibEnv) (st : FnState) (name : String)
    (attrs : AttrMap) : FnState × Except RtError Nat :=
  match lookupTable st.table (env.canon name attrs) with
  | some h => (st, .ok h)
  | none =>
    match instantiateBuild env name attrs with
    | .error e => (st, .error e)
    | .ok fbody =>
      ((instantiateFinish st (env.canon name attrs) fbody).1,
       .ok (instantiateFinish st (env.canon name attrs) fbody).2.1)

/-- `GetFunctionBody`: the outer `none` is the bounds `CHECK` failing;
the inner option is the stored pointer. -/
def getFunctionBody (st : FnState) (h : Nat) : Option (Option FBody) :=
  st.funcGraphs.get? h

/-- First critical section of `GetOrCreateItem`: bounds check, then the
installed item if any. -/
def getOrCreateItemLookup (st : FnState) (h : Nat) :
    Except RtError (Option Nat) :=
  match st.items.get? h with
  | none => .error (.notFound "Function handle is not valid.")
  | some it => .ok it

/-- Second critical section of `GetOrCreateItem`: install the freshly
built item only if the slot is still empty; in either case the caller
receives the item it built. -/
def getOrCreateItemFinish (st : FnState) (h : Nat) (fresh : Nat) :
    FnState × Nat :=
  match st.items.get? h with
  | some none => ({ st with items := st.items.set h (some fresh) }, fresh)
  | _ => (st, fresh)

/-- `GetOrCreateItem`, with the `CreateItem` result abstracted as
`fresh`. -/
def getOrCreateItem (st : FnState) (h : Nat) (fresh : Nat) :
    FnState × Except RtError Nat :=
  match getOrCreateItemLookup st h with
  | .error e => (st, .error e)
  | .ok (some it) => (st, .ok it)
  | .ok none =>
    let r := getOrCreateItemFinish st h fresh
    (r.1, .ok r.2)

/-- One runtime transition: any `Instantiate` call, any lock-phase of a
racing `Instantiate`, any `GetOrCreateItem` call, or any lock-phase of
a racing `GetOrCreateItem`. -/
inductive RtStep : FnState → FnState → Prop where
  | inst : ∀ (env : LibEnv) (st : FnState) (name : String) (attrs : AttrMap),
      RtStep st (instantiate env st name attrs).1
  | instFinish : ∀ (st : FnState) (key : String) (fbody : FBody),
      RtStep st (instantiateFinish st key fbody).1
  | item : ∀ (st : FnState) (h fresh : Nat),
      RtStep st (getOrCreateItem st h fresh).1
  | itemFinish : ∀ (st : FnState) (h fresh : Nat),
      RtStep st (getOrCreateItemFinish st h fresh).1

/-- Reachability through runtime transitions. -/
def RtReach : FnState → FnState → Prop := Relation.ReflTransGen RtStep

/-- The runtime invariant: item and body tables have equal length, and
every registered key maps to an in-range, non-null FunctionBody. -/
def FnInv (st : FnState) : Prop :=
  st.items.length = st.funcGraphs.length ∧
  ∀ p ∈ st.table, ∃ b : FBody, st.funcGraphs.get? p.2 = some (some b)

lemma get?_lt_of_some {α : Type} {l : List α} {h : Nat} {v : α}
    (hg : l.get? h = some v) : h < l.length :=
  (List.get?_eq_some.mp hg).choose

lemma instantiateFinish_funcGraphs_get {st : FnState} {key : String}
    {fbody : FBody} {h : Nat} {v : Option FBody}
    (hg : st.funcGraphs.get? h = some v) :
    (instantiateFinish st key fbody).1.funcGraphs.get? h = some v := by
  unfold instantiateFinish
  cases hk : lookupTable st.table key with
  | some h0 => exact hg
  | none =>
    show (st.funcGraphs ++ [some fbody]).get? h = some v
    rw [List.get?_append (get?_lt_of_some hg)]
    exact hg

lemma instantiateFinish_items_get {st : FnState} {key : String}
    {fbody : FBody} {h : Nat} {it : Nat}
    (hlen : st.items.length = st.funcGraphs.length)
    (hi : st.items.get? h = some (some it)) :
    (instantiateFinish st key fbody).1.items.get? h = some (some it) := by
  unfold instantiateFinish
  cases hk : lookupTable st.table key with
  | some h0 => exact hi
  | none =>
    show (resizeItems st.items (st.funcGraphs.length + 1)).get? h = some (some it)
    unfold resizeItems
    have hlt : h < st.items.length := get?_lt_of_some hi
    have hlt2 : h < (st.items.take (st.funcGraphs.length + 1)).length := by
      rw [List.length_take]
      omega
    rw [List.get?_append hlt2, List.get?_take]
    · exact hi
    · omega

lemma instantiateFinish_table_mem {st : FnState} {key : String}
    {fbody : FBody} {p : String × Nat}
    (hp : p ∈ st.table) : p ∈ (instantiateFinish st key fbody).1.table := by
  unfold instantiateFinish
  cases hk : lookupTable st.table key with
  | some h0 => exact hp
  | none => exact List.mem_cons_of_mem _ hp

lemma instantiateFinish_inv {st : FnState} {key : String} {fbody : FBody}
    (hinv : FnInv st) : FnInv (instantiateFinish st key fbody).1 := by
  unfold instantiateFinish
  cases hk : lookupTable st.table key with
  | some h0 => exact hinv
  | none =>
    constructor
    · show (resizeItems st.items (st.funcGraphs.length + 1)).length =
        (st.funcGraphs ++ [some fbody]).length
      unfold resizeItems
      rw [List.length_append, List.length_take, List.length_replicate,
        List.length_append]
      have := hinv.1
      simp only [List.length_cons, List.length_nil]
      omega
    · intro p hp
      rcases List.mem_cons.mp hp with heq | hmem
      · subst heq
        exact ⟨fbody, List.get?_concat_length _ _⟩
      · obtain ⟨b, hb⟩ := hinv.2 p hmem
        refine ⟨b, ?_⟩
        show (st.funcGraphs ++ [some fbody]).get? p.2 = some (some b)
        rw [List.get?_append (get?_lt_of_some hb)]
        exact hb

lemma itemFinish_funcGraphs (st : FnState) (h fresh : Nat) :
    (getOrCreateItemFinish st h fresh).1.funcGraphs = st.funcGraphs := by
  unfold getOrCreateItemFinish
  split <;> rfl

lemma itemFinish_table (st : FnState) (h fresh : Nat) :
    (getOrCreateItemFinish st h fresh).1.table = st.table := by
  unfold getOrCreateItemFinish
  split <;> rfl

lemma itemFinish_items_get {st : FnState} {h fresh h' it : Nat}
    (hi : st.items.get? h' = some (some it)) :
    (getOrCreateItemFinish st h fresh).1.items.get? h' = some (some it) := by
  unfold getOrCreateItemFinish
  cases hk : st.items.get? h with
  | none => exact hi
  | some o =>
    cases o with
    | some x => exact hi
    | none =>
      show (st.items.set h (some fresh)).get? h' = some (some it)
      have hne : h ≠ h' := by
        intro he
        rw [he, hi] at hk
        cases hk
      rw [List.get?_set_ne _ _ hne]
      exact hi

lemma itemFinish_inv {st : FnState} {h fresh : Nat} (hinv : FnInv st) :
    FnInv (getOrCreateItemFinish st h fresh).1 := by
  unfold getOrCreateItemFinish
  cases hk : st.items.get? h with
  | none => exact hinv
  | some o =>
    cases o with
    | some x => exact hinv
    | none =>
      constructor
      · show (st.items.set h (some fresh)).length = st.funcGraphs.length
        rw [List.length_set]
        exact hinv.1
      · exact hinv.2

lemma instantiate_fst_cases (env : LibEnv) (st : FnState) (name : String)
    (attrs : AttrMap) :
    (instantiate env st name attrs).1 = st ∨
    ∃ key fbody,
      (instantiate env st name attrs).1 = (instantiateFinish st key fbody).1 := by
  unfold instantiate
  split
  · left; rfl
  · split
    · left; rfl
    · right
      exact ⟨_, _, rfl⟩

lemma getOrCreateItem_fst_cases (st : FnState) (h fresh : Nat) :
    (getOrCreateItem st h fresh).1 = st ∨
    (getOrCreateItem st h fresh).1 = (getOrCreateItemFinish st h fresh).1 := by
  unfold getOrCreateItem
  split
  · left; rfl
  · left; rfl
  · right; rfl

lemma rtStep_preserve {st st' : FnState} (hs : RtStep st st')
    (hinv : FnInv st) :
    FnInv st' ∧
    (∀ h v, st.funcGraphs.get? h = some v → st'.funcGraphs.get? h = some v) ∧
    (∀ h it, st.items.get? h = some (some it) →
        st'.items.get? h = some (some it)) ∧
    (∀ p ∈ st.table, p ∈ st'.table) := by
  have hfin : ∀ key fbody,
      FnInv (instantiateFinish st key fbody).1 ∧
      (∀ h v, st.funcGraphs.get? h = some v →
        (instantiateFinish st key fbody).1.funcGraphs.get? h = some v) ∧
      (∀ h it, st.items.get? h = some (some it) →
        (instantiateFinish st key fbody).1.items.get? h = some (some it)) ∧
      (∀ p ∈ st.table, p ∈ (instantiateFinish st key fbody).1.table) :=
    fun key fbody =>
      ⟨instantiateFinish_inv hinv,
       fun _ _ hg => instantiateFinish_funcGraphs_get hg,
       fun _ _ hi => instantiateFinish_items_get hinv.1 hi,
       fun _ hp => instantiateFinish_table_mem hp⟩
  have hifin : ∀ h fresh,
      FnInv (getOrCreateItemFinish st h fresh).1 ∧
      (∀ h' v, st.funcGraphs.get? h' = some v →
        (getOrCreateItemFinish st h fresh).1.funcGraphs.get? h' = some v) ∧
      (∀ h' it, st.items.get? h' = some (some it) →
        (getOrCreateItemFinish st h fresh).1.items.get? h' = some (some it)) ∧
      (∀ p ∈ st.table, p ∈ (getOrCreateItemFinish st h fresh).1.table) :=
    fun h fresh =>
      ⟨itemFinish_inv hinv,
       fun h' v hg => by rw [itemFinish_funcGraphs]; exact hg,
       fun h' it hi => itemFinish_items_get hi,
       fun p hp => by rw [itemFinish_table]; exact hp⟩
  cases hs with
  | inst env st name attrs =>
    rcases instantiate_fst_cases env st name attrs with he | ⟨key, fbody, he⟩
    · rw [he]
      exact ⟨hinv, fun _ _ hg => hg, fun _ _ hi => hi, fun _ hp => hp⟩
    · rw [he]
      exact hfin key fbody
  | instFinish st key fbody =>
    exact hfin key fbody
  | item st h fresh =>
    rcases getOrCreateItem_fst_cases st h fresh with he | he
    · rw [he]
      exact ⟨hinv, fun _ _ hg => hg, fun _ _ hi => hi, fun _ hp => hp⟩
    · rw [he]
      exact hifin h fresh
  | itemFinish st h fresh =>
    exact hifin h fresh

lemma rtReach_preserve {st st' : FnState} (hr : RtReach st st')
    (hinv : FnInv st) :
    FnInv st' ∧
    (∀ h v, st.funcGraphs.get? h = some v → st'.funcGraphs.get? h = some v) ∧
    (∀ h it, st.items.get? h = some (some it) →
        st'.items.get? h = some (some it)) ∧
    (∀ p ∈ st.table, p ∈ st'.table) := by
  induction hr with
  | refl => exact ⟨hinv, fun _ _ hg => hg, fun _ _ hi => hi, fun _ hp => hp⟩
  | tail hab hbc ih =>
    obtain ⟨hi, hf, hit, htab⟩ := ih
    obtain ⟨hi', hf', hit', htab'⟩ := rtStep_preserve hbc hi
    exact ⟨hi', fun h v hg => hf' h v (hf h v hg),
      fun h it hx => hit' h it (hit h it hx),
      fun p hp => htab' p (htab p hp)⟩

lemma instantiateFinish_of_miss (st : FnState) (key : String) (f : FBody)
    (hmiss : lookupTable st.table key = none) :
    instantiateFinish st key f =
      ({ table := (key, st.funcGraphs.length) :: st.table,
         funcGraphs := st.funcGraphs ++ [some f],
         items := resizeItems st.items (st.funcGraphs.length + 1) },
       st.funcGraphs.length, false) := by
  unfold instantiateFinish
  rw [hmiss]

lemma instantiateFinish_of_hit (st : FnState) (key : String) (f : FBody)
    (h : Nat) (hhit : lookupTable st.table key = some h) :
    instantiateFinish st key f = (st, h, true) := by
  unfold instantiateFinish
  rw [hhit]

lemma lookupTable_cons_self (t : List (String × Nat)) (k : String) (h : Nat) :
    lookupTable ((k, h) :: t) k = some h := by
  unfold lookupTable
  rw [List.find?_cons_of_pos]
  · rfl
  · simp

lemma lookupTable_mem {t : List (String × Nat)} {k : String} {h : Nat}
    (hk : lookupTable t k = some h) : ∃ q ∈ t, q.2 = h := by
  unfold lookupTable at hk
  cases hf : t.find? (fun p => p.1 = k) with
  | none => rw [hf] at hk; cases hk
  | some q =>
    rw [hf] at hk
    exact ⟨q, List.mem_of_find?_eq_some hf, by simpa using hk⟩

lemma instantiate_ok_cases {env : LibEnv} {st st' : FnState} {name : String}
    {attrs : AttrMap} {h : Nat}
    (he : instantiate env st name attrs = (st', .ok h)) :
    (st' = st ∧ lookupTable st.table (env.canon name attrs) = some h) ∨
    (∃ fbody, lookupTable st.table (env.canon name attrs) = none ∧
       instantiateBuild env name attrs = .ok fbody ∧
       st' = (instantiateFinish st (env.canon name attrs) fbody).1 ∧
       h = (instantiateFinish st (env.canon name attrs) fbody).2.1) := by
  unfold instantiate at he
  split at he
  next h0 heq =>
    left
    injection he with he1 he2
    injection he2 with he3
    exact ⟨he1.symm, by rw [heq, he3]⟩
  next heq =>
    split at he
    next e heq2 =>
      injection he with he1 he2
      cases he2
    next fbody heq2 =>
      right
      injection he with he1 he2
      injection he2 with he3
      exact ⟨fbody, heq, heq2, he1.symm, he3.symm⟩

/-- Claim C1: two `Instantiate` calls with the same canonical key,
racing (both missed the first lock section and built bodies; the
finish sections run in either order) or sequential, succeed with the
same handle; exactly one FunctionBody is retained for the key — the
second builder's body is discarded (the `true` flag is the `delete`)
and the existing handle returned, the runner-up leaving the state
untouched. -/
theorem instantiate_same_key_spec (env : LibEnv) (st st0 st1 : FnState)
    (key name : String) (attrs : AttrMap) (f1 f2 : FBody) (h : Nat)
    (hmiss : lookupTable st.table key = none)
    (hseq : instantiate env st0 name attrs = (st1, .ok h)) :
    ((instantiateFinish st key f1).2.2 = false ∧
     (instantiateFinish (instantiateFinish st key f1).1 key f2).2.1 =
       (instantiateFinish st key f1).2.1 ∧
     (instantiateFinish (instantiateFinish st key f1).1 key f2).2.2 = true ∧
     (instantiateFinish (instantiateFinish st key f1).1 key f2).1 =
       (instantiateFinish st key f1).1 ∧
     (instantiateFinish st key f1).1.funcGraphs =
       st.funcGraphs ++ [some f1] ∧
     ((instantiateFinish st key f1).1.table.countP (fun p => p.1 = key)) = 1) ∧
    instantiate env st1 name attrs = (st1, .ok h) := by
  have hfin1 := instantiateFinish_of_miss st key f1 hmiss
  have hlook2 : lookupTable (instantiateFinish st key f1).1.table key =
      some st.funcGraphs.length := by
    rw [hfin1]
    exact lookupTable_cons_self st.table key st.funcGraphs.length
  have hfin2 := instantiateFinish_of_hit (instantiateFinish st key f1).1 key f2
    st.funcGraphs.length hlook2
  have hf0 : st.table.find? (fun p => p.1 = key) = none := by
    unfold lookupTable at hmiss
    cases hf : st.table.find? (fun p => p.1 = key) with
    | none => rfl
    | some q => rw [hf] at hmiss; cases hmiss
  constructor
  · refine ⟨?_, ?_, ?_, ?_, ?_, ?_⟩
    · rw [hfin1]
    · rw [hfin2, hfin1]
    · rw [hfin2]
    · rw [hfin2]
    · rw [hfin1]
    · rw [hfin1]
      show (((key, st.funcGraphs.length) :: st.table).countP
        (fun p => p.1 = key)) = 1
      rw [List.countP_cons_of_pos]
      · rw [List.countP_eq_zero.mpr]
        intro p hp
        exact List.find?_eq_none.mp hf0 p hp
      · simp
  · rcases instantiate_ok_cases hseq with ⟨hst, hk⟩ | ⟨fbody, hmiss0, hb, hst, hh⟩
    · subst hst
      unfold instantiate
      rw [hk]
    · have hfin0 := instantiateFinish_of_miss st0 (env.canon name attrs)
        fbody hmiss0
      have hlk1 : lookupTable st1.table (env.canon name attrs) = some h := by
        rw [hst, hh, hfin0]
        exact lookupTable_cons_self st0.table (env.canon name attrs)
          st0.funcGraphs.length
      unfold instantiate
      rw [hlk1]

/-- Claim C9: a non-gradient name absent from the library yields a
not-found error from `Instantiate`, and the state — key table,
FunctionBody vector, and Item vector — is returned untouched: no
handle is allocated and no partial entry is visible. -/
theorem instantiate_notFound_spec (env : LibEnv) (st : FnState)
    (name : String) (attrs : AttrMap)
    (hng : name ≠ "SymbolicGradient")
    (hnf : env.lib name = none)
    (hmiss : lookupTable st.table (env.canon name attrs) = none) :
    instantiate env st name attrs =
      (st, .error (.notFound ("Function " ++ name ++ " is not defined."))) := by
  have hb : instantiateBuild env name attrs =
      .error (.notFound ("Function " ++ name ++ " is not defined.")) := by
    unfold instantiateBuild
    rw [if_neg hng, hnf]
  unfold instantiate
  rw [hmiss, hb]

/-- Claim C10: a successful `Instantiate` leaves a non-null
FunctionBody at its handle, and every later `GetFunctionBody` at that
handle — after any interleaving of further runtime operations —
returns that same body: entries are never null, replaced, or removed. -/
theorem getFunctionBody_stable (env : LibEnv) (st : FnState)
    (name : String) (attrs : AttrMap) (h : Nat)
    (hinv : FnInv st)
    (hok : (instantiate env st name attrs).2 = .ok h) :
    ∃ b : FBody,
      getFunctionBody (instantiate env st name attrs).1 h = some (some b) ∧
      ∀ st', RtReach (instantiate env st name attrs).1 st' →
        getFunctionBody st' h = some (some b) := by
  have hinv' : FnInv (instantiate env st name attrs).1 :=
    (rtStep_preserve (RtStep.inst env st name attrs) hinv).1
  have he : instantiate env st name attrs =
      ((instantiate env st name attrs).1, .ok h) := by
    rw [← hok]
  have hbody : ∃ b : FBody,
      (instantiate env st name attrs).1.funcGraphs.get? h = some (some b) := by
    rcases instantiate_ok_cases he with ⟨hst, hk⟩ | ⟨fbody, hmiss, hb, hst, hh⟩
    · obtain ⟨q, hqmem, hq2⟩ := lookupTable_mem hk
      obtain ⟨b, hbq⟩ := hinv.2 q hqmem
      refine ⟨b, ?_⟩
      rw [hst, ← hq2]
      exact hbq
    · refine ⟨fbody, ?_⟩
      rw [hst, hh, instantiateFinish_of_miss st (env.canon name attrs)
        fbody hmiss]
      exact List.get?_concat_length _ _
  obtain ⟨b, hb⟩ := hbody
  refine ⟨b, hb, ?_⟩
  intro st' hr
  exact (rtReach_preserve hr hinv').2.1 h (some b) hb

/-- Claim C2: once an Item is installed for a handle it is never
replaced or removed by any later or concurrent operation; a caller
whose re-lock finds the slot already occupied does not install its
freshly built Item — the state is returned unchanged. -/
theorem getOrCreateItem_install_once (st : FnState) (h fresh it : Nat)
    (hinv : FnInv st)
    (hocc : st.items.get? h = some (some it)) :
    getOrCreateItemFinish st h fresh = (st, fresh) ∧
    ∀ st', RtReach st st' → st'.items.get? h = some (some it) := by
  constructor
  · unfold getOrCreateItemFinish
    rw [hocc]
  · intro st' hr
    exact (rtReach_preserve hr hinv).2.2.1 h it hocc

/-- Claim C3 (amended): the caller that loses the installation race
does not install its freshly built Item, but it returns that freshly
built Item — not the installed winner — to its own caller; the winner
stays installed in the table. -/
theorem getOrCreateItem_loser_keeps_own (st : FnState) (h fresh it : Nat)
    (hocc : st.items.get? h = some (some it)) :
    (getOrCreateItemFinish st h fresh).2 = fresh ∧
    (getOrCreateItemFinish st h fresh).1 = st ∧
    (getOrCreateItemFinish st h fresh).1.items.get? h = some (some it) := by
  have hfin : getOrCreateItemFinish st h fresh = (st, fresh) := by
    unfold getOrCreateItemFinish
    rw [hocc]
  rw [hfin]
  exact ⟨rfl, rfl, hocc⟩

deriving instance DecidableEq for Except

/-- A trivial function body. -/
def fbItemEx : FBody :=
  { graph := { nextId := 0, nodes := [], edges := [] },
    argTypes := [], retTypes := [], argNodes := [], retNodes := [] }

/-- A second, distinct function body (a racing builder's duplicate). -/
def fbItemEx2 : FBody :=
  { graph := { nextId := 1, nodes := [], edges := [] },
    argTypes := [], retTypes := [], argNodes := [], retNodes := [] }

/-- A runtime state with one instantiated function whose Item 1 is
already installed at handle 0. -/
def stItemEx : FnState :=
  { table := [("k", 0)], funcGraphs := [some fbItemEx], items := [some 1] }

/-- The empty runtime state. -/
def stEmptyEx : FnState := { table := [], funcGraphs := [], items := [] }

/-- A library environment with one function `f`. -/
def envEx : LibEnv :=
  { lib := fun s => if s = "f" then some { name := "f" } else none,
    canon := fun n _ => n,
    buildBody := fun _ _ => .ok fbItemEx,
    gradBuild := fun _ => .error (.invalidArgument "no gradient") }

/-- Claim C3 is false as stated: at the re-lock after building, the
installed (winning) Item is 1, but the code hands the caller its own
freshly built Item 2, not the winner. -/
theorem getOrCreateItem_claim_counterexample :
    stItemEx.items.get? 0 = some (some 1) ∧
    (getOrCreateItemFinish stItemEx 0 2).2 = 2 ∧
    (getOrCreateItemFinish stItemEx 0 2).2 ≠ 1 := by
  decide

theorem getOrCreateItem_loser_keeps_own_witness :
    (getOrCreateItemFinish stItemEx 0 2).2 = 2 ∧
    (getOrCreateItemFinish stItemEx 0 2).1 = stItemEx ∧
    (getOrCreateItemFinish stItemEx 0 2).1.items.get? 0 = some (some 1) :=
  getOrCreateItem_loser_keeps_own stItemEx 0 2 1 (by decide)

theorem getOrCreateItem_install_once_witness :
    getOrCreateItemFinish stItemEx 0 2 = (stItemEx, 2) :=
  (getOrCreateItem_install_once stItemEx 0 2 1
    ⟨rfl, fun p hp => by
      simp only [stItemEx, List.mem_singleton] at hp
      subst hp
      exact ⟨fbItemEx, rfl⟩⟩
    (by decide)).1

theorem instantiate_same_key_spec_witness :
    ((instantiateFinish (instantiateFinish stEmptyEx "k" fbItemEx).1 "k"
        fbItemEx2).2.1 = (instantiateFinish stEmptyEx "k" fbItemEx).2.1 ∧
     (instantiateFinish stEmptyEx "k" fbItemEx).1.funcGraphs =
        stEmptyEx.funcGraphs ++ [some fbItemEx]) ∧
    instantiate envEx (instantiate envEx stEmptyEx "f" []).1 "f" [] =
      ((instantiate envEx stEmptyEx "f" []).1, .ok 0) :=
  ⟨⟨(instantiate_same_key_spec envEx stEmptyEx stEmptyEx
        (instantiate envEx stEmptyEx "f" []).1 "k" "f" [] fbItemEx fbItemEx2 0
        (by decide) (by decide)).1.2.1,
    (instantiate_same_key_spec envEx stEmptyEx stEmptyEx
        (instantiate envEx stEmptyEx "f" []).1 "k" "f" [] fbItemEx fbItemEx2 0
        (by decide) (by decide)).1.2.2.2.2.1⟩,
   (instantiate_same_key_spec envEx stEmptyEx stEmptyEx
        (instantiate envEx stEmptyEx "f" []).1 "k" "f" [] fbItemEx fbItemEx2 0
        (by decide) (by decide)).2⟩

theorem instantiate_notFound_spec_witness :
    instantiate envEx stEmptyEx "DoesNotExist" [] =
      (stEmptyEx,
       .error (.notFound "Function DoesNotExist is not defined.")) :=
  instantiate_notFound_spec envEx stEmptyEx "DoesNotExist" []
    (by decide) (by decide) (by decide)

theorem getFunctionBody_stable_witness :
    ∃ b : FBody,
      getFunctionBody (instantiate envEx stEmptyEx "f" []).1 0 =
          some (some b) ∧
      ∀ st', RtReach (instantiate envEx stEmptyEx "f" []).1 st' →
        getFunctionBody st' 0 = some (some b) :=
  getFunctionBody_stable envEx stEmptyEx "f" [] 0
    ⟨rfl, fun p hp => absurd hp (List.not_mem_nil p)⟩ (by decide)
